import Mathlib

/-!
Verification of the incremental load & upsert engine of the stock-market
data pipeline (src/utils/data_storage.py, src/utils/data_extraction.py,
src/pipelines/data_ingestion/company_metadata.py,
src/pipelines/data_ingestion/company_news.py,
src/pipelines/company_metadata.py).

The embedding is shallow: SQLite tables become lists of rows, a row is an
association list from column name to value, the upsert statement
(INSERT ... ON CONFLICT(key) DO UPDATE SET nonkey = excluded.nonkey,
executed row by row by executemany) becomes a fold over the batch, and the
paginated article-fetch loops become fuel-indexed structural recursions
(the fuel of fetch_articles is exactly MAX_NUM_REQUESTS - total_requests,
the loop bound of the source; the outer while-True loops of the news
pipeline carry explicit fuel because the source loop is unbounded).
-/

/-- SQLite storage value: integer/real payloads are collapsed into `int`
(the claims under study never depend on the numeric representation),
text, and SQL NULL. -/
inductive Val where
  | int : Int → Val
  | text : String → Val
  | null : Val
deriving DecidableEq

/-- Row of a table or of the incoming DataFrame: association list from
column name to value, as handed to `conn.executemany` by `upsert_data`. -/
abbrev Row := List (String × Val)

/-- Reading a cell: the first binding of the column wins, a column absent
from the row reads as SQL NULL (an INSERT that does not mention a column
stores NULL there). -/
def getCol (r : Row) (c : String) : Val :=
  match r.find? (fun p => p.1 == c) with
  | some p => p.2
  | none => Val.null

/-- Builds the row that assigns `f c` to every column `c` of `cols`. -/
def rowOf (cols : List String) (f : String → Val) : Row :=
  cols.map (fun c => (c, f c))

/-- Key tuple of a row under the `id_columns` of `upsert_data`. -/
def keyOf (keyCols : List String) (r : Row) : List Val :=
  keyCols.map (getCol r)

/-- Effect of `DO UPDATE SET "c" = excluded."c"` for every DataFrame
column `c` outside `id_columns` (the update clause built by
`upsert_data`): non-key DataFrame columns take the new value, all other
table columns keep the stored value. -/
def updRow (tableCols dfCols keyCols : List String) (old new : Row) : Row :=
  rowOf tableCols (fun c =>
    if c ∈ dfCols ∧ c ∉ keyCols then getCol new c else getCol old c)

/-- Effect of a plain `INSERT INTO t (dfCols) VALUES (...)`: DataFrame
columns take the incoming value, the remaining table columns store NULL. -/
def insRow (tableCols dfCols : List String) (new : Row) : Row :=
  rowOf tableCols (fun c => if c ∈ dfCols then getCol new c else Val.null)

/-- Per-stored-row effect of one conflicting insert. -/
def updateByRow (tableCols dfCols keyCols : List String) (b r : Row) : Row :=
  if keyOf keyCols r = keyOf keyCols b then updRow tableCols dfCols keyCols r b else r

/-- One `INSERT ... ON CONFLICT(id_columns) DO UPDATE` of a single batch
row against the table: if a stored row carries the same key tuple the
non-key DataFrame columns are overwritten, otherwise the row is appended. -/
def upsertRow (tableCols dfCols keyCols : List String) (t : List Row) (b : Row) : List Row :=
  if t.any (fun r => decide (keyOf keyCols r = keyOf keyCols b)) then
    t.map (updateByRow tableCols dfCols keyCols b)
  else
    t ++ [insRow tableCols dfCols b]

/-- Embedding of `upsert_data` from src/utils/data_storage.py: `conn.executemany` runs the
upsert statement once per DataFrame row, in order. -/
def upsert_data (tableCols dfCols keyCols : List String) (t : List Row) (df : List Row) : List Row :=
  df.foldl (upsertRow tableCols dfCols keyCols) t

/-- Key tuples of the stored rows, in storage order. -/
def keys (keyCols : List String) (t : List Row) : List (List Val) :=
  t.map (keyOf keyCols)

/-- SQLite storage classes produced by `map_dtype_to_sqlite`. -/
inductive SqlType where
  | integer
  | real
  | text
deriving DecidableEq

/-- Pandas dtypes that reach `map_dtype_to_sqlite` after
`preprocess_dataframe`. -/
inductive PDtype where
  | int64
  | float64
  | boolT
  | objectT
deriving DecidableEq

/-- Embedding of `map_dtype_to_sqlite` from src/utils/data_storage.py: a dtype whose name
contains "int" maps to INTEGER, one containing "float" to REAL, everything
else to TEXT. -/
def map_dtype_to_sqlite : PDtype → SqlType
  | PDtype.int64 => SqlType.integer
  | PDtype.float64 => SqlType.real
  | PDtype.boolT => SqlType.text
  | PDtype.objectT => SqlType.text

/-- Embedding of `add_missing_columns` from src/utils/data_storage.py: every DataFrame
column absent from the table schema is appended by
`ALTER TABLE ... ADD COLUMN` (nullable, no default); existing columns are
never touched. The source iterates a Python set, whose order is
unspecified; the claims under study are order-insensitive, the embedding
fixes DataFrame order. -/
def add_missing_columns (schema dfSchema : List (String × SqlType)) : List (String × SqlType) :=
  schema ++ dfSchema.filter (fun p => decide (p.1 ∉ schema.map Prod.fst))

/-- Declared storage class of a column in a schema. -/
def lookupType (schema : List (String × SqlType)) (c : String) : Option SqlType :=
  (schema.find? (fun p => p.1 == c)).map Prod.snd

/-- Exception raised by a SQLite call. `handle_sql_error` recovers the
1-based parameter position with the regex `parameter (\d+)` over the
message; the embedding carries that parse result directly. -/
structure SqlError where
  msg : String
  paramIndex : Option Nat
deriving DecidableEq

/-- Plain-text rendering of a value for the diagnostic log lines. -/
def Val.render : Val → String
  | Val.int i => toString i
  | Val.text s => s
  | Val.null => "None"

/-- Embedding of `handle_sql_error` from src/utils/data_storage.py: log the error, and
when a parameter position can be read off the message and is in range,
log the offending column name together with its sample values; the
function only logs, it never raises. Returns the log lines it emits. -/
def handle_sql_error (e : SqlError) (dfCols : List String) (df : List Row) : List String :=
  ("Error saving to SQLite: " ++ e.msg) ::
  (match e.paramIndex with
   | some i =>
     let idx := i - 1
     match dfCols.get? idx with
     | some col =>
       ["Problematic Column: " ++ col,
        "Sample Values: " ++ String.intercalate ", "
          (((df.map (fun r => getCol r col)).take 5).map Val.render),
        "Unique Values: " ++ String.intercalate ", "
          (((df.map (fun r => getCol r col)).dedup).map Val.render)]
     | none =>
       ["Problematic index " ++ toString idx ++ " is out of bounds for the DataFrame columns."]
   | none => ["Could not extract column index from the error message."])

/-- Embedding of `create_table_if_not_exists` from src/utils/data_storage.py, with the
SQLite engine response to the CREATE TABLE statement passed in as
`execOutcome`. On success the table comes into existence with the
DataFrame schema (key columns NOT NULL, single key column as primary key,
several as a UNIQUE constraint); on failure the exception is consumed by
`handle_sql_error` and the function returns normally, so the result is
always `Except.ok` — nothing is re-raised to the caller. -/
def create_table_if_not_exists (execOutcome : Except SqlError Unit)
    (dfSchema : List (String × SqlType)) (df : List Row) :
    Except SqlError (Option (List (String × SqlType)) × List String) :=
  match execOutcome with
  | Except.ok _ => Except.ok (some dfSchema, ["Table created successfully."])
  | Except.error e => Except.ok (none, handle_sql_error e (dfSchema.map Prod.fst) df)

/-- Embedding of `upsert_data` from src/utils/data_storage.py including its try/except:
the SQLite engine response to the `executemany` is `execOutcome`. On
success the batch is applied and committed; on failure nothing is
committed and the exception is consumed by `handle_sql_error`, so the
result is always `Except.ok` — nothing is re-raised to the caller. -/
def upsert_data_exec (execOutcome : Except SqlError Unit)
    (tableCols dfCols keyCols : List String) (t : List Row) (df : List Row) :
    Except SqlError (List Row × List String) :=
  match execOutcome with
  | Except.ok _ =>
    Except.ok (upsert_data tableCols dfCols keyCols t df, ["Data successfully upserted."])
  | Except.error e => Except.ok (t, handle_sql_error e dfCols df)

/-- Embedding of `get_last_run_timestamp` from src/utils/data_storage.py: the row set of
`SELECT last_run FROM pipeline_log WHERE ticker = ? ORDER BY last_run DESC
LIMIT 1` is the maximal stored timestamp of the ticker, if any. -/
def get_last_run_timestamp (plog : List (String × Nat)) (ticker : String) : Option Nat :=
  ((plog.filter (fun p => p.1 == ticker)).map Prod.snd).max?

/-- Embedding of `update_pipeline_log` from src/utils/data_storage.py over the metadata
pipeline log. Modelled from the spec: the file
metadata/company_metadata/pipeline_log.sql that creates the table is not
under src/; following spec section 6 (`ticker` unique) the table carries a
uniqueness constraint on `ticker`. The source runs a plain
`INSERT INTO pipeline_log (ticker, last_run) VALUES (?, ?)` and catches
`sqlite3.IntegrityError`, only logging it — so a conflicting insert
leaves the stored row untouched. -/
def update_pipeline_log (plog : List (String × Nat)) (ticker : String) (ts : Nat) :
    List (String × Nat) :=
  if plog.any (fun p => p.1 == ticker) then plog
  else plog ++ [(ticker, ts)]

/-- Embedding of `log_published_dates` from src/utils/data_storage.py:
`INSERT ... ON CONFLICT(ticker) DO UPDATE SET oldest_published_date =
excluded.oldest_published_date, latest_published_date =
excluded.latest_published_date` — an existing row of the ticker is
overwritten with exactly the incoming pair. The stored pair is
(oldest_published_date, latest_published_date), dates as naturals. -/
def log_published_dates (plog : List (String × Nat × Nat)) (ticker : String)
    (oldest latest : Nat) : List (String × Nat × Nat) :=
  if plog.any (fun p => p.1 == ticker) then
    plog.map (fun p => if p.1 == ticker then (ticker, oldest, latest) else p)
  else plog ++ [(ticker, oldest, latest)]

/-- Run-level state of `run_pipeline_for_companies`: the storage reached so
far (abstract, `σ`), the lines of data/logs/failed_tickers.log appended by
this run, and the in-memory `failed_tickers` list. -/
structure RunState (σ : Type) where
  store : σ
  failLog : List String
  failedTickers : List String

/-- Body of the per-ticker loop of `run_pipeline_for_companies` (identical
in src/pipelines/data_ingestion/company_metadata.py lines 106-118 and
src/pipelines/data_ingestion/company_news.py lines 140-152):
`execute_company_pipeline` is abstracted as `process`, which returns the
storage state it leaves behind together with the error message when it
raises. On an exception the ticker and message are appended as
`"<ticker> - <error message>"` to the failure log, the ticker is appended
to `failed_tickers`, and the loop moves on. -/
def processOne {σ : Type} (process : String → σ → σ × Option String)
    (st : RunState σ) (t : String) : RunState σ :=
  match process t st.store with
  | (s, none) => { st with store := s }
  | (s, some e) =>
    { store := s,
      failLog := st.failLog ++ [t ++ " - " ++ e],
      failedTickers := st.failedTickers ++ [t] }

/-- Embedding of the `run_pipeline_for_companies` ticker loop and completion: every ticker
is processed in order, the connection is then closed and the number of
failed tickers is reported (the source logs
`"Failed to process <n> tickers"`; the embedding returns that count). -/
def run_pipeline_for_companies {σ : Type} (process : String → σ → σ × Option String)
    (tickers : List String) (st : RunState σ) : RunState σ × Nat :=
  let final := tickers.foldl (processOne process) st
  (final, final.failedTickers.length)

/-- Storage state after processing every ticker in order, ignoring the
failure bookkeeping. -/
def storeAfter {σ : Type} (process : String → σ → σ × Option String)
    (s : σ) (tickers : List String) : σ :=
  tickers.foldl (fun s t => (process t s).1) s

/-- Failure-log lines produced by a run, one line per failing ticker, in
processing order. -/
def failLinesFrom {σ : Type} (process : String → σ → σ × Option String) :
    σ → List String → List String
  | _, [] => []
  | s, t :: ts =>
    match process t s with
    | (s2, none) => failLinesFrom process s2 ts
    | (s2, some e) => (t ++ " - " ++ e) :: failLinesFrom process s2 ts

/-- Failed tickers of a run, one entry per failing ticker, in processing
order. -/
def failedFrom {σ : Type} (process : String → σ → σ × Option String) :
    σ → List String → List String
  | _, [] => []
  | s, t :: ts =>
    match process t s with
    | (s2, none) => failedFrom process s2 ts
    | (s2, some _) => t :: failedFrom process s2 ts

/-- Characters before the first occurrence of the separator " - ",
mirroring `line.split(' - ')[0]`. -/
def splitHeadToken : List Char → List Char
  | [] => []
  | c :: rest =>
    if [' ', '-', ' '].isPrefixOf (c :: rest) then []
    else c :: splitHeadToken rest

/-- Mirrors `str.strip()` on the space characters that can surround a
ticker symbol on a failure-log line. -/
def trimSpaces (cs : List Char) : List Char :=
  ((cs.dropWhile (fun c => c == ' ')).reverse.dropWhile (fun c => c == ' ')).reverse

/-- Embedding of `line.split` on ' - ' taking the first token stripped, the ticker read back from one
failure-log line. -/
def parse_failed_line (line : String) : String :=
  (trimSpaces (splitHeadToken line.toList)).asString

/-- Failure-log replay of src/pipelines/data_ingestion/company_metadata.py
line 86 and src/pipelines/data_ingestion/company_news.py line 120:
`list(set(line.split(' - ')[0].strip() for line in f.readlines()))`. The
Python set iterates in unspecified order; the embedding keeps first
occurrences, which the claims (all order-insensitive) never distinguish. -/
def replay_tickers_dedup (lines : List String) : List String :=
  (lines.map parse_failed_line).dedup

/-- Failure-log replay of src/pipelines/company_metadata.py line 103:
`[line.split(' - ')[0].strip() for line in f.readlines()]` — no
deduplication. -/
def replay_tickers_legacy (lines : List String) : List String :=
  lines.map parse_failed_line

/-- Article as delivered by one GNews API page, before the dictionary
built by `fetch_articles`; `publishedAt` is the published timestamp (UTC
datetimes modelled as naturals, isoformat rendering being monotone). -/
structure RawArticle where
  title : String
  content : String
  publishedAt : Nat
deriving DecidableEq

/-- Outcome of one GET against the article feed: a 200 page of articles,
or a non-success status / transport exception (both break the loop). -/
inductive ApiResponse where
  | ok : List RawArticle → ApiResponse
  | err : ApiResponse
deriving DecidableEq

/-- Article record appended to `all_articles` by `fetch_articles`. The
`ticker_id` comes from `generate_id`, a process-local hash treated as a
collaborator and passed in as `genId`. -/
structure NewsArticle where
  ticker : String
  ticker_id : Nat
  title : String
  content : String
  published_date : Nat
deriving DecidableEq

/-- Dictionary built for one raw article inside `fetch_articles`. -/
def mkNewsArticle (genId : String → Nat) (ticker : String) (a : RawArticle) : NewsArticle :=
  { ticker := ticker, ticker_id := genId ticker,
    title := a.title, content := a.content, published_date := a.publishedAt }

/-- Loop of `fetch_articles` (src/utils/data_extraction.py lines 103-155).
`resp` maps the index of each issued GET to its outcome; `fuel` is
`MAX_NUM_REQUESTS - total_requests`, the exact remaining iteration budget
of `while total_requests < MAX_NUM_REQUESTS` (`total_requests` counts only
non-empty 200 pages). Returns the pooled articles, the running latest and
oldest published dates, and the number of GETs issued. -/
def fetch_go (resp : Nat → ApiResponse) (genId : String → Nat) (ticker : String) :
    Nat → Nat → List NewsArticle → Nat → Nat → (List NewsArticle × Nat × Nat × Nat)
  | 0, calls, acc, latest, oldest => (acc, latest, oldest, calls)
  | fuel + 1, calls, acc, latest, oldest =>
    match resp calls with
    | ApiResponse.ok [] => (acc, latest, oldest, calls + 1)
    | ApiResponse.ok (a :: arts) =>
      let page := a :: arts
      fetch_go resp genId ticker fuel (calls + 1)
        (acc ++ page.map (mkNewsArticle genId ticker))
        (page.foldl (fun l x => if l < x.publishedAt then x.publishedAt else l) latest)
        (page.foldl (fun o x => if x.publishedAt < o then x.publishedAt else o) oldest)
    | ApiResponse.err => (acc, latest, oldest, calls + 1)

/-- Embedding of `fetch_articles` from src/utils/data_extraction.py: run the request loop
starting from `latest_date = from_date`, `oldest_date = to_date`, zero
requests, then sort the pooled articles by published date ascending
(`all_articles.sort(key=...)`, a stable sort, embedded as `mergeSort`).
The fourth component counts the GETs issued. -/
def fetch_articles (resp : Nat → ApiResponse) (genId : String → Nat) (ticker : String)
    (maxReq fromDate toDate : Nat) : List NewsArticle × Nat × Nat × Nat :=
  let r := fetch_go resp genId ticker maxReq 0 [] fromDate toDate
  (r.1.mergeSort (fun a b => decide (a.published_date ≤ b.published_date)), r.2)

/-- Concatenation of `n` consecutive pages starting at page index `i`. -/
def pagesFrom (pages : Nat → List RawArticle) (i : Nat) : Nat → List RawArticle
  | 0 => []
  | n + 1 => pages i ++ pagesFrom pages (i + 1) n

/-- One of the three window-stitching while-loops of
`execute_company_pipeline` in src/pipelines/data_ingestion/company_news.py
(lines 41-49, 66-73, 80-87): repeatedly call `fetch_articles` on the
window and extend `all_articles`, terminating when a call returns no
articles. `fetchA from to` abstracts one `fetch_articles` call as
(articles, latest_published, oldest_published). The init loop advances
`from_date` to the returned oldest date, both delta loops advance it to
the returned latest date (`useLatest`). The source loop is `while True`;
`fuel` bounds the embedding, enough fuel being a hypothesis where it
matters. -/
def stitch_loop (fetchA : Nat → Nat → (List NewsArticle × Nat × Nat)) (useLatest : Bool)
    (toDate : Nat) : Nat → Nat → List NewsArticle → List NewsArticle
  | 0, _, acc => acc
  | fuel + 1, fromDate, acc =>
    match fetchA fromDate toDate with
    | ([], _, _) => acc
    | (a :: arts, latest, oldest) =>
      stitch_loop fetchA useLatest toDate fuel
        (if useLatest then latest else oldest) (acc ++ (a :: arts))

/-- Pooling part of `execute_company_pipeline` in
src/pipelines/data_ingestion/company_news.py (lines 31-89). News
pipeline-log rows are (ticker, latest_published_date,
oldest_published_date), unique by ticker (the SELECT of line 53 returns at
most one row). Init: fetch from START_DATE to now walking backward. Delta
with a watermark row: fetch forward from the stored latest to now, then
backward from START_DATE up to the stored oldest, pooling both. Delta
without a watermark row: the source only logs
"No pipeline log found ... run the initial load first" and fetches
nothing, so the pooled list is empty and the subsequent
`if all_articles:` save-and-log-watermark block is skipped. -/
def news_pool (fetchA : Nat → Nat → (List NewsArticle × Nat × Nat)) (fuel start now : Nat)
    (plog : List (String × Nat × Nat)) (ticker : String) (load_type : String) :
    List NewsArticle :=
  if load_type = "init" then
    stitch_loop fetchA false now fuel start []
  else
    match plog.find? (fun p => p.1 == ticker) with
    | some p =>
      stitch_loop fetchA true now fuel p.2.1 [] ++
      stitch_loop fetchA true p.2.2 fuel start []
    | none => []

/-- Ticker list and load type that reach the per-ticker loop of
`run_pipeline_for_companies` in
src/pipelines/data_ingestion/company_news.py (lines 116-128): with
`use_failed_tickers` and an existing log the replay list is used and
`load_type` is reassigned to "delta"; with a missing log the function
returns before any processing (`none`); otherwise an explicit ticker list
wins over scraping. -/
def news_resolve (load_type : String) (tickers : Option (List String))
    (use_failed_tickers : Bool) (logExists : Bool) (logLines : List String)
    (scraped : List String) : Option (List String × String) :=
  if use_failed_tickers then
    if logExists then some (replay_tickers_dedup logLines, "delta")
    else none
  else
    match tickers with
    | some ts => some (ts, load_type)
    | none => some (scraped, load_type)

/-- Observable outcome of `execute_company_pipeline` in
src/pipelines/data_ingestion/company_metadata.py for one ticker: the load
type actually executed after the per-ticker fallback, the historical-data
rows handed to `save_to_sqlite` for the `historical_data` table, and the
pipeline log after the closing `update_pipeline_log` call. -/
structure MetaResult where
  effective_load_type : String
  historical_saved : List (Nat × Row)
  pipeline_log : List (String × Nat)
deriving DecidableEq

/-- Embedding of `execute_company_pipeline` from
src/pipelines/data_ingestion/company_metadata.py (lines 21-62), with the
fetched historical price frame passed in as (period, record) pairs. A
requested delta load downgrades to init for this call alone when
`get_last_run_timestamp` finds nothing (the local variable `load_type` is
reassigned); a delta load keeps only historical rows strictly newer than
the stored last run; finally `update_pipeline_log` records `now`. -/
def execute_company_pipeline (plog : List (String × Nat)) (ticker : String)
    (load_type : String) (historical : List (Nat × Row)) (now : Nat) : MetaResult :=
  let last := get_last_run_timestamp plog ticker
  let lt := if load_type = "delta" ∧ last = none then "init" else load_type
  let hist := if lt = "delta" then
      match last with
      | some m => historical.filter (fun p => decide (m < p.1))
      | none => historical
    else historical
  { effective_load_type := lt,
    historical_saved := hist,
    pipeline_log := update_pipeline_log plog ticker now }

/-! Row-level lemmas about the upsert engine. -/

theorem getCol_rowOf (cols : List String) (f : String → Val) (c : String) :
    getCol (rowOf cols f) c = if c ∈ cols then f c else Val.null := by
  induction cols with
  | nil => rfl
  | cons a tl ih =>
    by_cases h : a = c
    · subst h
      simp [rowOf, getCol, List.find?_cons]
    · have hb : ((a, f a).1 == c) = false := by simpa using h
      have hstep : getCol (rowOf (a :: tl) f) c = getCol (rowOf tl f) c := by
        simp [rowOf, getCol, List.find?_cons, hb]
      rw [hstep, ih]
      have h2 : ¬ c = a := fun hh => h hh.symm
      simp [List.mem_cons, h2]

theorem rowOf_congr (cols : List String) (f g : String → Val)
    (h : ∀ c ∈ cols, f c = g c) : rowOf cols f = rowOf cols g :=
  List.map_congr_left (fun c hc => by rw [h c hc])

theorem forall_of_map_eq {α β : Type} {f g : α → β} :
    ∀ l : List α, l.map f = l.map g → ∀ a ∈ l, f a = g a := by
  intro l
  induction l with
  | nil => intro _ a ha; cases ha
  | cons x xs ih =>
    intro hmap a ha
    simp only [List.map_cons, List.cons.injEq] at hmap
    rcases List.mem_cons.mp ha with rfl | ha2
    · exact hmap.1
    · exact ih hmap.2 a ha2

theorem keyOf_updRow (tableCols dfCols keyCols : List String)
    (hkt : ∀ k ∈ keyCols, k ∈ tableCols) (old new : Row) :
    keyOf keyCols (updRow tableCols dfCols keyCols old new) = keyOf keyCols old := by
  unfold keyOf updRow
  apply List.map_congr_left
  intro k hk
  rw [getCol_rowOf]
  simp [hkt k hk, hk]

theorem keyOf_insRow (tableCols dfCols keyCols : List String)
    (hkd : ∀ k ∈ keyCols, k ∈ dfCols) (hdt : ∀ c ∈ dfCols, c ∈ tableCols) (new : Row) :
    keyOf keyCols (insRow tableCols dfCols new) = keyOf keyCols new := by
  unfold keyOf insRow
  apply List.map_congr_left
  intro k hk
  rw [getCol_rowOf]
  simp [hdt k (hkd k hk), hkd k hk]

theorem updRow_updRow (tableCols dfCols keyCols : List String) (r b1 b2 : Row) :
    updRow tableCols dfCols keyCols (updRow tableCols dfCols keyCols r b1) b2
      = updRow tableCols dfCols keyCols r b2 := by
  unfold updRow
  apply rowOf_congr
  intro c hc
  by_cases h : c ∈ dfCols ∧ c ∉ keyCols
  · simp [h]
  · simp [h, getCol_rowOf, hc]

theorem updRow_insRow (tableCols dfCols keyCols : List String) (b b2 : Row)
    (hkey : ∀ k ∈ keyCols, getCol b k = getCol b2 k) :
    updRow tableCols dfCols keyCols (insRow tableCols dfCols b) b2
      = insRow tableCols dfCols b2 := by
  unfold updRow insRow
  apply rowOf_congr
  intro c hc
  by_cases hdf : c ∈ dfCols
  · by_cases hkc : c ∈ keyCols
    · simp [hdf, hkc, getCol_rowOf, hc, hkey c hkc]
    · simp [hdf, hkc]
  · simp [hdf, getCol_rowOf, hc]

theorem keyOf_updateByRow (tableCols dfCols keyCols : List String)
    (hkt : ∀ k ∈ keyCols, k ∈ tableCols) (b r : Row) :
    keyOf keyCols (updateByRow tableCols dfCols keyCols b r) = keyOf keyCols r := by
  unfold updateByRow
  by_cases h : keyOf keyCols r = keyOf keyCols b
  · rw [if_pos h, keyOf_updRow tableCols dfCols keyCols hkt]
  · rw [if_neg h]

theorem keys_map_updateByRow (tableCols dfCols keyCols : List String)
    (hkt : ∀ k ∈ keyCols, k ∈ tableCols) (b : Row) (t : List Row) :
    keys keyCols (t.map (updateByRow tableCols dfCols keyCols b)) = keys keyCols t := by
  unfold keys
  rw [List.map_map]
  apply List.map_congr_left
  intro r _
  exact keyOf_updateByRow tableCols dfCols keyCols hkt b r

theorem mem_keys_upsertRow (tableCols dfCols keyCols : List String)
    (hkt : ∀ k ∈ keyCols, k ∈ tableCols) (t : List Row) (b : Row) (k : List Val)
    (hk : k ∈ keys keyCols t) :
    k ∈ keys keyCols (upsertRow tableCols dfCols keyCols t b) := by
  unfold upsertRow
  by_cases h : t.any (fun r => decide (keyOf keyCols r = keyOf keyCols b)) = true
  · rw [if_pos h, keys_map_updateByRow tableCols dfCols keyCols hkt]
    exact hk
  · rw [if_neg h]
    unfold keys at hk ⊢
    rw [List.map_append]
    exact List.mem_append_left _ hk

theorem self_mem_keys_upsertRow (tableCols dfCols keyCols : List String)
    (hkt : ∀ k ∈ keyCols, k ∈ tableCols)
    (hkd : ∀ k ∈ keyCols, k ∈ dfCols) (hdt : ∀ c ∈ dfCols, c ∈ tableCols)
    (t : List Row) (b : Row) :
    keyOf keyCols b ∈ keys keyCols (upsertRow tableCols dfCols keyCols t b) := by
  unfold upsertRow
  by_cases h : t.any (fun r => decide (keyOf keyCols r = keyOf keyCols b)) = true
  · rw [if_pos h, keys_map_updateByRow tableCols dfCols keyCols hkt]
    rcases List.any_eq_true.mp h with ⟨r, hr, hkey⟩
    have hkey2 : keyOf keyCols r = keyOf keyCols b := by simpa using hkey
    exact hkey2 ▸ List.mem_map_of_mem (keyOf keyCols) hr
  · rw [if_neg h]
    unfold keys
    rw [List.map_append]
    apply List.mem_append_right
    simp [keyOf_insRow tableCols dfCols keyCols hkd hdt]

theorem mem_keys_upsert_data (tableCols dfCols keyCols : List String)
    (hkt : ∀ k ∈ keyCols, k ∈ tableCols) (df : List Row) :
    ∀ (t : List Row) (k : List Val), k ∈ keys keyCols t →
    k ∈ keys keyCols (upsert_data tableCols dfCols keyCols t df) := by
  induction df with
  | nil => intro t k hk; exact hk
  | cons b bs ih =>
    intro t k hk
    exact ih _ k (mem_keys_upsertRow tableCols dfCols keyCols hkt t b k hk)

theorem keys_present_upsert_data (tableCols dfCols keyCols : List String)
    (hkt : ∀ k ∈ keyCols, k ∈ tableCols)
    (hkd : ∀ k ∈ keyCols, k ∈ dfCols) (hdt : ∀ c ∈ dfCols, c ∈ tableCols)
    (df : List Row) :
    ∀ (t : List Row), ∀ b ∈ df,
    keyOf keyCols b ∈ keys keyCols (upsert_data tableCols dfCols keyCols t df) := by
  induction df with
  | nil => intro t b hb; cases hb
  | cons b0 bs ih =>
    intro t b hb
    rcases List.mem_cons.mp hb with rfl | hb2
    · exact mem_keys_upsert_data tableCols dfCols keyCols hkt bs _ _
        (self_mem_keys_upsertRow tableCols dfCols keyCols hkt hkd hdt t b)
    · exact ih _ b hb2

/-- Cumulative effect of replaying the whole batch against one stored row
when every batch key is already present: each batch row in order either
rewrites the row (key match) or leaves it alone. -/
def applyAll (tableCols dfCols keyCols : List String) (df : List Row) (r : Row) : Row :=
  df.foldl (fun r b => updateByRow tableCols dfCols keyCols b r) r

/-- Last batch row carrying the key tuple `k`, the one whose values win
under sequential conflict-overwrite. -/
def lastMatch (keyCols : List String) (df : List Row) (k : List Val) : Option Row :=
  match df with
  | [] => none
  | b :: bs =>
    match lastMatch keyCols bs k with
    | some b2 => some b2
    | none => if keyOf keyCols b = k then some b else none

theorem upsert_data_eq_map (tableCols dfCols keyCols : List String)
    (hkt : ∀ k ∈ keyCols, k ∈ tableCols) (df : List Row) :
    ∀ (S : List Row), (∀ b ∈ df, keyOf keyCols b ∈ keys keyCols S) →
    upsert_data tableCols dfCols keyCols S df
      = S.map (applyAll tableCols dfCols keyCols df) := by
  induction df with
  | nil =>
    intro S _
    show S = S.map (fun r => r)
    rw [List.map_id_fun']
    rfl
  | cons b bs ih =>
    intro S hS
    have hb : keyOf keyCols b ∈ keys keyCols S := hS b (List.mem_cons_self b bs)
    have hconf : S.any (fun r => decide (keyOf keyCols r = keyOf keyCols b)) = true := by
      rcases List.mem_map.mp hb with ⟨r, hr, hkey⟩
      exact List.any_eq_true.mpr ⟨r, hr, by simpa using hkey⟩
    have h1 : upsertRow tableCols dfCols keyCols S b
        = S.map (updateByRow tableCols dfCols keyCols b) := by
      unfold upsertRow
      rw [if_pos hconf]
    have hS2 : ∀ b2 ∈ bs, keyOf keyCols b2
        ∈ keys keyCols (S.map (updateByRow tableCols dfCols keyCols b)) := by
      intro b2 hb2
      rw [keys_map_updateByRow tableCols dfCols keyCols hkt]
      exact hS b2 (List.mem_cons_of_mem b hb2)
    show upsert_data tableCols dfCols keyCols (upsertRow tableCols dfCols keyCols S b) bs = _
    rw [h1, ih _ hS2, List.map_map]
    rfl

theorem applyAll_eq_lastMatch (tableCols dfCols keyCols : List String)
    (hkt : ∀ k ∈ keyCols, k ∈ tableCols) (df : List Row) :
    ∀ r : Row, applyAll tableCols dfCols keyCols df r =
      match lastMatch keyCols df (keyOf keyCols r) with
      | some b => updRow tableCols dfCols keyCols r b
      | none => r := by
  induction df with
  | nil => intro r; rfl
  | cons b bs ih =>
    intro r
    show applyAll tableCols dfCols keyCols bs (updateByRow tableCols dfCols keyCols b r) = _
    by_cases h : keyOf keyCols r = keyOf keyCols b
    · have hub : updateByRow tableCols dfCols keyCols b r
          = updRow tableCols dfCols keyCols r b := by
        unfold updateByRow
        rw [if_pos h]
      rw [hub, ih (updRow tableCols dfCols keyCols r b),
        keyOf_updRow tableCols dfCols keyCols hkt]
      have hsym : keyOf keyCols b = keyOf keyCols r := h.symm
      cases hlm : lastMatch keyCols bs (keyOf keyCols r) with
      | some b2 => simp [lastMatch, hlm, updRow_updRow]
      | none => simp [lastMatch, hlm, hsym, updRow_updRow]
    · have hub : updateByRow tableCols dfCols keyCols b r = r := by
        unfold updateByRow
        rw [if_neg h]
      rw [hub, ih r]
      have h2 : ¬ keyOf keyCols b = keyOf keyCols r := fun hh => h hh.symm
      cases hlm : lastMatch keyCols bs (keyOf keyCols r) with
      | some b2 => simp [lastMatch, hlm]
      | none => simp [lastMatch, hlm, h2]

theorem lastMatch_append (keyCols : List String) (b0 : Row) (k : List Val) :
    ∀ df : List Row, lastMatch keyCols (df ++ [b0]) k
      = if keyOf keyCols b0 = k then some b0 else lastMatch keyCols df k := by
  intro df
  induction df with
  | nil =>
    by_cases h : keyOf keyCols b0 = k
    · simp [lastMatch, h]
    · simp [lastMatch, h]
  | cons d ds ih =>
    show (match lastMatch keyCols (ds ++ [b0]) k with
      | some b2 => some b2
      | none => if keyOf keyCols d = k then some d else none) = _
    rw [ih]
    by_cases h : keyOf keyCols b0 = k
    · simp [lastMatch, h]
    · simp [lastMatch, h]

theorem lastMatch_eq_none (keyCols : List String) (k : List Val) :
    ∀ df : List Row, (∀ b ∈ df, keyOf keyCols b ≠ k) → lastMatch keyCols df k = none := by
  intro df
  induction df with
  | nil => intro _; rfl
  | cons d ds ih =>
    intro h
    have hds := ih (fun b hb => h b (List.mem_cons_of_mem d hb))
    simp [lastMatch, hds, h d (List.mem_cons_self d ds)]

theorem lastMatch_of_nodup (keyCols : List String) :
    ∀ df : List Row, (df.map (keyOf keyCols)).Nodup → ∀ b ∈ df,
    lastMatch keyCols df (keyOf keyCols b) = some b := by
  intro df
  induction df with
  | nil => intro _ b hb; cases hb
  | cons d ds ih =>
    intro hnd b hb
    rw [List.map_cons, List.nodup_cons] at hnd
    rcases List.mem_cons.mp hb with rfl | hb2
    · have hnone : lastMatch keyCols ds (keyOf keyCols b) = none := by
        apply lastMatch_eq_none
        intro b2 hb2 hcontra
        exact hnd.1 (hcontra ▸ List.mem_map_of_mem (keyOf keyCols) hb2)
      simp [lastMatch, hnone]
    · simp [lastMatch, ih hnd.2 b hb2]

theorem saturated_upsert_data (tableCols dfCols keyCols : List String)
    (hkt : ∀ k ∈ keyCols, k ∈ tableCols)
    (hkd : ∀ k ∈ keyCols, k ∈ dfCols) (hdt : ∀ c ∈ dfCols, c ∈ tableCols) :
    ∀ (df t : List Row), ∀ r ∈ upsert_data tableCols dfCols keyCols t df,
    ∀ b, lastMatch keyCols df (keyOf keyCols r) = some b →
    updRow tableCols dfCols keyCols r b = r := by
  intro df
  induction df using List.reverseRecOn with
  | nil =>
    intro t r _ b hb
    exact Option.noConfusion hb
  | append_singleton ds b0 ih =>
    intro t r hr b hb
    have hsplit : upsert_data tableCols dfCols keyCols t (ds ++ [b0])
        = upsertRow tableCols dfCols keyCols (upsert_data tableCols dfCols keyCols t ds) b0 := by
      unfold upsert_data
      rw [List.foldl_append]
      rfl
    rw [hsplit] at hr
    by_cases hconf : (upsert_data tableCols dfCols keyCols t ds).any
        (fun r => decide (keyOf keyCols r = keyOf keyCols b0)) = true
    · have hmap : upsertRow tableCols dfCols keyCols
          (upsert_data tableCols dfCols keyCols t ds) b0
          = (upsert_data tableCols dfCols keyCols t ds).map
              (updateByRow tableCols dfCols keyCols b0) := by
        unfold upsertRow
        rw [if_pos hconf]
      rw [hmap] at hr
      rcases List.mem_map.mp hr with ⟨r0, hr0, rfl⟩
      rw [lastMatch_append,
        keyOf_updateByRow tableCols dfCols keyCols hkt b0 r0] at hb
      by_cases h : keyOf keyCols r0 = keyOf keyCols b0
      · have hb0 : b = b0 := by
          rw [if_pos h.symm] at hb
          exact (Option.some.inj hb).symm
        have hub : updateByRow tableCols dfCols keyCols b0 r0
            = updRow tableCols dfCols keyCols r0 b0 := by
          unfold updateByRow
          rw [if_pos h]
        rw [hb0, hub]
        exact updRow_updRow tableCols dfCols keyCols r0 b0 b0
      · have h2 : ¬ keyOf keyCols b0 = keyOf keyCols r0 := fun hh => h hh.symm
        rw [if_neg h2] at hb
        have hub : updateByRow tableCols dfCols keyCols b0 r0 = r0 := by
          unfold updateByRow
          rw [if_neg h]
        rw [hub]
        exact ih t r0 hr0 b hb
    · have hconf2 := Bool.eq_false_iff.mpr hconf
      have happ : upsertRow tableCols dfCols keyCols
          (upsert_data tableCols dfCols keyCols t ds) b0
          = upsert_data tableCols dfCols keyCols t ds ++ [insRow tableCols dfCols b0] := by
        unfold upsertRow
        rw [if_neg hconf]
      rw [happ] at hr
      rcases List.mem_append.mp hr with hr1 | hr2
      · have hall := List.any_eq_false.mp hconf2
        have hne : keyOf keyCols b0 ≠ keyOf keyCols r := by
          intro hh
          exact hall r hr1 (by simpa using hh.symm)
        rw [lastMatch_append, if_neg hne] at hb
        exact ih t r hr1 b hb
      · have hr2b : r = insRow tableCols dfCols b0 := by simpa using hr2
        subst hr2b
        rw [lastMatch_append,
          keyOf_insRow tableCols dfCols keyCols hkd hdt, if_pos rfl] at hb
        have hb0 : b = b0 := (Option.some.inj hb).symm
        rw [hb0]
        exact updRow_insRow tableCols dfCols keyCols b0 b0 (fun k _ => rfl)

/-- C1: for every record batch, table and key column set, upserting the
same batch twice leaves the table content identical to upserting it once;
and re-upserting a batch whose key values already exist replaces all
non-key DataFrame columns of each conflicting stored row with the new
values (full replace-on-conflict). The hypotheses state the standing
regime of `save_to_sqlite`: `id_columns` are DataFrame columns, all
DataFrame columns exist on the table (ensured by
`create_table_if_not_exists` / `add_missing_columns`), and key values are
non-null (the NOT NULL constraint on key columns). -/
theorem upsert_idempotent_and_replaces (tableCols dfCols keyCols : List String)
    (t df : List Row)
    (hkd : ∀ k ∈ keyCols, k ∈ dfCols) (hdt : ∀ c ∈ dfCols, c ∈ tableCols)
    (hnn : ∀ b ∈ df, ∀ k ∈ keyCols, getCol b k ≠ Val.null) :
    upsert_data tableCols dfCols keyCols (upsert_data tableCols dfCols keyCols t df) df
      = upsert_data tableCols dfCols keyCols t df
    ∧ ((df.map (keyOf keyCols)).Nodup →
       (∀ b ∈ df, keyOf keyCols b ∈ keys keyCols t) →
       ∀ b ∈ df, ∀ r ∈ upsert_data tableCols dfCols keyCols t df,
         keyOf keyCols r = keyOf keyCols b →
         ∀ c ∈ dfCols, c ∉ keyCols → getCol r c = getCol b c) := by
  have hkt : ∀ k ∈ keyCols, k ∈ tableCols := fun k hk => hdt k (hkd k hk)
  constructor
  · have hpres := keys_present_upsert_data tableCols dfCols keyCols hkt hkd hdt df t
    rw [upsert_data_eq_map tableCols dfCols keyCols hkt df _ hpres]
    have hid : ∀ r ∈ upsert_data tableCols dfCols keyCols t df,
        applyAll tableCols dfCols keyCols df r = r := by
      intro r hr
      rw [applyAll_eq_lastMatch tableCols dfCols keyCols hkt df r]
      cases hlm : lastMatch keyCols df (keyOf keyCols r) with
      | none => rfl
      | some b =>
        exact saturated_upsert_data tableCols dfCols keyCols hkt hkd hdt df t r hr b hlm
    rw [List.map_congr_left hid]
    exact List.map_id _
  · intro hnd hpres0 b hb r hr hkey c hc hck
    rw [upsert_data_eq_map tableCols dfCols keyCols hkt df t hpres0] at hr
    rcases List.mem_map.mp hr with ⟨r0, hr0, rfl⟩
    have happ := applyAll_eq_lastMatch tableCols dfCols keyCols hkt df r0
    cases hlm : lastMatch keyCols df (keyOf keyCols r0) with
    | none =>
      simp only [hlm] at happ
      rw [happ] at hkey
      have hlb := lastMatch_of_nodup keyCols df hnd b hb
      rw [← hkey, hlm] at hlb
      exact Option.noConfusion hlb
    | some b2 =>
      simp only [hlm] at happ
      rw [happ] at hkey ⊢
      rw [keyOf_updRow tableCols dfCols keyCols hkt] at hkey
      have hlb := lastMatch_of_nodup keyCols df hnd b hb
      rw [← hkey, hlm] at hlb
      have hb2 : b2 = b := Option.some.inj hlb
      subst hb2
      unfold updRow
      rw [getCol_rowOf]
      simp [hdt c hc, hc, hck]

/-- Concrete table schema used by the witnesses. -/
def demoTableCols : List String := ["ticker_id", "price", "volume"]

/-- Concrete DataFrame columns used by the witnesses. -/
def demoDfCols : List String := ["ticker_id", "price"]

/-- Concrete key columns used by the witnesses. -/
def demoKeyCols : List String := ["ticker_id"]

/-- Concrete one-row batch used by the witnesses. -/
def demoBatch : List Row := [[("ticker_id", Val.text "T1"), ("price", Val.int 5)]]

/-- Witness: `upsert_idempotent_and_replaces` applied to a concrete batch
over a concrete table. -/
theorem upsert_idempotent_and_replaces_witness :
    (∀ k ∈ demoKeyCols, k ∈ demoDfCols)
    ∧ (∀ c ∈ demoDfCols, c ∈ demoTableCols)
    ∧ (∀ b ∈ demoBatch, ∀ k ∈ demoKeyCols, getCol b k ≠ Val.null)
    ∧ (upsert_data demoTableCols demoDfCols demoKeyCols
         (upsert_data demoTableCols demoDfCols demoKeyCols [] demoBatch) demoBatch
         = upsert_data demoTableCols demoDfCols demoKeyCols [] demoBatch
       ∧ ((demoBatch.map (keyOf demoKeyCols)).Nodup →
          (∀ b ∈ demoBatch, keyOf demoKeyCols b ∈ keys demoKeyCols []) →
          ∀ b ∈ demoBatch,
          ∀ r ∈ upsert_data demoTableCols demoDfCols demoKeyCols [] demoBatch,
            keyOf demoKeyCols r = keyOf demoKeyCols b →
            ∀ c ∈ demoDfCols, c ∉ demoKeyCols → getCol r c = getCol b c)) :=
  ⟨by decide, by decide, by decide,
   upsert_idempotent_and_replaces demoTableCols demoDfCols demoKeyCols [] demoBatch
     (by decide) (by decide) (by decide)⟩

/-- C8: schema widening is monotonic. After `add_missing_columns` every
pre-existing column binding is still in the schema with its storage class
unchanged (columns are only added, never dropped or retyped), and
upserting a batch row lacking a previously-seen column succeeds (no
conflict means a plain append) with the inserted row storing NULL in
every table column the row does not supply. -/
theorem schema_widening_monotonic (schema dfSchema : List (String × SqlType))
    (tableCols dfCols keyCols : List String) (t : List Row) (b : Row)
    (hnoconf : t.any (fun r => decide (keyOf keyCols r = keyOf keyCols b)) = false) :
    (∀ p ∈ schema, p ∈ add_missing_columns schema dfSchema)
    ∧ (∀ c ∈ schema.map Prod.fst,
        lookupType (add_missing_columns schema dfSchema) c = lookupType schema c)
    ∧ upsertRow tableCols dfCols keyCols t b = t ++ [insRow tableCols dfCols b]
    ∧ (∀ c ∈ tableCols, c ∉ dfCols → getCol (insRow tableCols dfCols b) c = Val.null) := by
  refine ⟨?_, ?_, ?_, ?_⟩
  · intro p hp
    unfold add_missing_columns
    exact List.mem_append_left _ hp
  · intro c hc
    rcases List.mem_map.mp hc with ⟨p, hp, rfl⟩
    have hsome : (schema.find? (fun q => q.1 == p.1)).isSome := by
      rw [List.find?_isSome]
      exact ⟨p, hp, by simp⟩
    unfold lookupType add_missing_columns
    rw [List.find?_append]
    cases hfind : schema.find? (fun q => q.1 == p.1) with
    | none => rw [hfind] at hsome; cases hsome
    | some q => rfl
  · unfold upsertRow
    rw [if_neg (by simp [hnoconf])]
  · intro c hc hcd
    unfold insRow
    rw [getCol_rowOf]
    simp [hc, hcd]

/-- Witness: `schema_widening_monotonic` on a concrete schema that
already has a column the incoming batch lacks. -/
theorem schema_widening_monotonic_witness :
    (([] : List Row).any
        (fun r => decide (keyOf demoKeyCols r
          = keyOf demoKeyCols [("ticker_id", Val.text "T2")])) = false)
    ∧ ((∀ p ∈ [("ticker_id", SqlType.text), ("price", SqlType.real)],
          p ∈ add_missing_columns [("ticker_id", SqlType.text), ("price", SqlType.real)]
              [("ticker_id", SqlType.text)])
      ∧ (∀ c ∈ [("ticker_id", SqlType.text), ("price", SqlType.real)].map Prod.fst,
          lookupType (add_missing_columns
            [("ticker_id", SqlType.text), ("price", SqlType.real)]
            [("ticker_id", SqlType.text)]) c
          = lookupType [("ticker_id", SqlType.text), ("price", SqlType.real)] c)
      ∧ upsertRow demoTableCols demoKeyCols demoKeyCols []
          [("ticker_id", Val.text "T2")]
          = [] ++ [insRow demoTableCols demoKeyCols [("ticker_id", Val.text "T2")]]
      ∧ (∀ c ∈ demoTableCols, c ∉ demoKeyCols →
          getCol (insRow demoTableCols demoKeyCols [("ticker_id", Val.text "T2")]) c
            = Val.null)) :=
  ⟨by decide,
   schema_widening_monotonic [("ticker_id", SqlType.text), ("price", SqlType.real)]
     [("ticker_id", SqlType.text)] demoTableCols demoKeyCols demoKeyCols []
     [("ticker_id", Val.text "T2")] (by decide)⟩

/-- C3 counterexample: a failing row write inside `upsert_data` and a
failing `CREATE TABLE` inside `create_table_if_not_exists` both return
normally (`Except.ok`): the exception is consumed by `handle_sql_error`
and is not re-raised, so a storage schema failure does not propagate out
of the upsert call, contrary to the claim. -/
theorem upsert_error_not_reraised_cex :
    (upsert_data_exec
        (Except.error { msg := "datatype mismatch in parameter 2", paramIndex := some 2 })
        demoTableCols demoDfCols demoKeyCols [] demoBatch).isOk = true
    ∧ (create_table_if_not_exists
        (Except.error { msg := "NOT NULL constraint failed", paramIndex := none })
        [("ticker_id", SqlType.text)] demoBatch).isOk = true := by
  exact ⟨rfl, rfl⟩

/-- C3 amended: a failing create/write inside the upsert path is caught
and diagnosed — the offending column is identified from the failing
parameter position and logged — but the exception is then swallowed, not
re-raised: the call returns `Except.ok` with the table unchanged and the
diagnostic log lines of `handle_sql_error`. -/
theorem upsert_error_swallowed (e : SqlError) (tableCols dfCols keyCols : List String)
    (t df : List Row) (i : Nat) (col : String)
    (hi : e.paramIndex = some i) (hcol : dfCols.get? (i - 1) = some col) :
    upsert_data_exec (Except.error e) tableCols dfCols keyCols t df
      = Except.ok (t, handle_sql_error e dfCols df)
    ∧ create_table_if_not_exists (Except.error e) (dfCols.map (fun c => (c, SqlType.text))) df
      = Except.ok (none, handle_sql_error e dfCols df)
    ∧ ("Problematic Column: " ++ col) ∈ handle_sql_error e dfCols df := by
  refine ⟨rfl, ?_, ?_⟩
  · unfold create_table_if_not_exists
    rw [show (dfCols.map (fun c => (c, SqlType.text))).map Prod.fst = dfCols from by
      rw [List.map_map]; exact List.map_id _]
  · unfold handle_sql_error
    simp only [hi, hcol]
    simp

/-- Witness: `upsert_error_swallowed` at a concrete constraint failure on
parameter 2 (column "price"). -/
theorem upsert_error_swallowed_witness :
    (({ msg := "datatype mismatch in parameter 2", paramIndex := some 2 } : SqlError).paramIndex
        = some 2)
    ∧ demoDfCols.get? (2 - 1) = some "price"
    ∧ (upsert_data_exec
          (Except.error { msg := "datatype mismatch in parameter 2", paramIndex := some 2 })
          demoTableCols demoDfCols demoKeyCols [] demoBatch
        = Except.ok ([], handle_sql_error
            { msg := "datatype mismatch in parameter 2", paramIndex := some 2 }
            demoDfCols demoBatch)
      ∧ create_table_if_not_exists
          (Except.error { msg := "datatype mismatch in parameter 2", paramIndex := some 2 })
          (demoDfCols.map (fun c => (c, SqlType.text))) demoBatch
        = Except.ok (none, handle_sql_error
            { msg := "datatype mismatch in parameter 2", paramIndex := some 2 }
            demoDfCols demoBatch)
      ∧ ("Problematic Column: " ++ "price") ∈ handle_sql_error
          { msg := "datatype mismatch in parameter 2", paramIndex := some 2 }
          demoDfCols demoBatch) :=
  ⟨rfl, by decide,
   upsert_error_swallowed { msg := "datatype mismatch in parameter 2", paramIndex := some 2 }
     demoTableCols demoDfCols demoKeyCols [] demoBatch 2 "price" rfl (by decide)⟩

theorem foldl_processOne {σ : Type} (process : String → σ → σ × Option String) :
    ∀ (tickers : List String) (st : RunState σ),
    tickers.foldl (processOne process) st
      = { store := storeAfter process st.store tickers,
          failLog := st.failLog ++ failLinesFrom process st.store tickers,
          failedTickers := st.failedTickers ++ failedFrom process st.store tickers } := by
  intro tickers
  induction tickers with
  | nil =>
    intro st
    simp [storeAfter, failLinesFrom, failedFrom]
  | cons t ts ih =>
    intro st
    show ts.foldl (processOne process) (processOne process st t) = _
    cases hp : process t st.store with
    | mk s2 msg =>
      cases msg with
      | none =>
        have h1 : processOne process st t = { st with store := s2 } := by
          unfold processOne
          rw [hp]
        rw [h1, ih]
        have h2 : storeAfter process st.store (t :: ts) = storeAfter process s2 ts := by
          unfold storeAfter
          rw [List.foldl_cons, hp]
        have h3 : failLinesFrom process st.store (t :: ts) = failLinesFrom process s2 ts := by
          simp only [failLinesFrom]
          rw [hp]
        have h4 : failedFrom process st.store (t :: ts) = failedFrom process s2 ts := by
          simp only [failedFrom]
          rw [hp]
        rw [h2, h3, h4]
      | some e =>
        have h1 : processOne process st t
            = { store := s2,
                failLog := st.failLog ++ [t ++ " - " ++ e],
                failedTickers := st.failedTickers ++ [t] } := by
          unfold processOne
          rw [hp]
        rw [h1, ih]
        have h2 : storeAfter process st.store (t :: ts) = storeAfter process s2 ts := by
          unfold storeAfter
          rw [List.foldl_cons, hp]
        have h3 : failLinesFrom process st.store (t :: ts)
            = (t ++ " - " ++ e) :: failLinesFrom process s2 ts := by
          simp only [failLinesFrom]
          rw [hp]
        have h4 : failedFrom process st.store (t :: ts) = t :: failedFrom process s2 ts := by
          simp only [failedFrom]
          rw [hp]
        rw [h2, h3, h4]
        simp

/-- C2: per-ticker failure isolation of `run_pipeline_for_companies`.
Whatever the per-ticker processing does — including raising — the run
processes every ticker in order (the final storage is the plain fold of
the processing function over all tickers, so tickers before and after a
failing one are fully persisted), each failure appends exactly the line
`"<ticker> - <error message>"` to the failure log in processing order,
the in-memory failed list gains exactly the failing tickers, and the run
returns normally reporting the failure count instead of raising. -/
theorem run_pipeline_isolates_failures {σ : Type}
    (process : String → σ → σ × Option String) (tickers : List String) (st : RunState σ) :
    (run_pipeline_for_companies process tickers st).1.store
        = storeAfter process st.store tickers
    ∧ (run_pipeline_for_companies process tickers st).1.failLog
        = st.failLog ++ failLinesFrom process st.store tickers
    ∧ (run_pipeline_for_companies process tickers st).1.failedTickers
        = st.failedTickers ++ failedFrom process st.store tickers
    ∧ (run_pipeline_for_companies process tickers st).2
        = st.failedTickers.length + (failedFrom process st.store tickers).length := by
  unfold run_pipeline_for_companies
  rw [foldl_processOne process tickers st]
  exact ⟨rfl, rfl, rfl, List.length_append _ _⟩

/-- C9 counterexample: a failure log naming the same ticker on two lines
(two different runs) is replayed by the consumer in
src/pipelines/company_metadata.py with that ticker appearing twice in the
ticker list handed to the per-ticker loop — not exactly once. -/
theorem replay_legacy_duplicates_cex :
    (replay_tickers_legacy ["INFY.NS - boom", "INFY.NS - crash"]).count "INFY.NS" = 2 := by
  decide

/-- C9 amended: the two data_ingestion pipelines deduplicate the failure
log on read — the replayed list is duplicate-free and holds exactly the
tickers parsed from the log lines — while the legacy consumer in
src/pipelines/company_metadata.py performs no deduplication and presents
a ticker once per log line. -/
theorem replay_dedup_ingestion (lines : List String) :
    (replay_tickers_dedup lines).Nodup
    ∧ (∀ tk, tk ∈ replay_tickers_dedup lines ↔ tk ∈ lines.map parse_failed_line)
    ∧ replay_tickers_legacy lines = lines.map parse_failed_line :=
  ⟨List.nodup_dedup _, fun _ => List.mem_dedup, rfl⟩

/-- C10: in the news pipeline, replaying the failure log forces the load
type of the whole replayed run to "delta", whatever load type the caller
passed. -/
theorem news_replay_forces_delta (load_type : String) (tickers : Option (List String))
    (logLines : List String) (scraped : List String) :
    news_resolve load_type tickers true true logLines scraped
      = some (replay_tickers_dedup logLines, "delta") := rfl

/-- C4 counterexample: a stored watermark (oldest 10, latest 20) updated
with a pooled batch spanning [15, 18] is overwritten to exactly (15, 18):
the stored oldest_published_date increased from 10 to 15 and the stored
latest_published_date decreased from 20 to 18, so the watermarks are not
reconciled by overall min/max and are not monotone across runs. -/
theorem watermark_overwritten_cex :
    log_published_dates [("INFY.NS", 10, 20)] "INFY.NS" 15 18 = [("INFY.NS", 15, 18)]
    ∧ ¬ ((15 : Nat) ≤ 10)
    ∧ ¬ ((20 : Nat) ≤ 18) := by
  decide

theorem find?_overwrite (ticker : String) (o l : Nat) :
    ∀ plog : List (String × Nat × Nat), plog.any (fun p => p.1 == ticker) = true →
    (plog.map (fun p => if p.1 == ticker then (ticker, o, l) else p)).find?
        (fun p => p.1 == ticker) = some (ticker, o, l) := by
  intro plog
  induction plog with
  | nil => intro h; cases h
  | cons p ps ih =>
    intro h
    rw [List.map_cons, List.find?_cons]
    by_cases hp : (p.1 == ticker) = true
    · rw [if_pos hp]
      have hbt : (((ticker, o, l) : String × Nat × Nat).1 == ticker) = true := by simp
      rw [hbt]
    · have hb : (p.1 == ticker) = false := Bool.eq_false_iff.mpr hp
      have h2 : ps.any (fun p => p.1 == ticker) = true := by
        rcases List.any_eq_true.mp h with ⟨x, hx, hxp⟩
        rcases List.mem_cons.mp hx with rfl | hx2
        · exact absurd hxp (by simp [hb])
        · exact List.any_eq_true.mpr ⟨x, hx2, hxp⟩
      rw [if_neg hp, hb]
      exact ih h2

/-- C4 amended: `log_published_dates` overwrites rather than reconciles —
for a ticker that already has a watermark row the stored pair becomes
exactly the incoming (oldest, latest) of the newly pooled batch,
independent of the previously stored values, so the coverage interval can
narrow; for a new ticker a fresh row is appended. -/
theorem log_published_dates_overwrites (plog : List (String × Nat × Nat))
    (ticker : String) (o l : Nat)
    (hmem : plog.any (fun p => p.1 == ticker) = true) :
    (log_published_dates plog ticker o l).find? (fun p => p.1 == ticker)
      = some (ticker, o, l) := by
  unfold log_published_dates
  rw [if_pos hmem]
  exact find?_overwrite ticker o l plog hmem

/-- Witness: `log_published_dates_overwrites` on the concrete store of the
counterexample. -/
theorem log_published_dates_overwrites_witness :
    ([("INFY.NS", (10 : Nat), (20 : Nat))].any (fun p => p.1 == "INFY.NS") = true)
    ∧ (log_published_dates [("INFY.NS", 10, 20)] "INFY.NS" 15 18).find?
        (fun p => p.1 == "INFY.NS") = some ("INFY.NS", 15, 18) :=
  ⟨by decide, log_published_dates_overwrites [("INFY.NS", 10, 20)] "INFY.NS" 15 18 (by decide)⟩

/-- C5 counterexample: after a first successful run at time 100 and a
second successful run at time 200, the pipeline-log row still stores 100:
the plain INSERT of `update_pipeline_log` conflicts with the unique
ticker, the IntegrityError is caught and only logged, and the stored
last_run does not reflect the second run. -/
theorem pipeline_log_stale_cex :
    update_pipeline_log (update_pipeline_log [] "INFY.NS" 100) "INFY.NS" 200
      = [("INFY.NS", 100)]
    ∧ get_last_run_timestamp
        (update_pipeline_log (update_pipeline_log [] "INFY.NS" 100) "INFY.NS" 200) "INFY.NS"
      ≠ some 200 := by
  decide

/-- C5 amended: the watermark row is created on the ticker's first
successful run; on every subsequent successful run the plain INSERT hits
the unique constraint on ticker, the IntegrityError is caught and merely
logged, and the stored row is left untouched — no second row appears, but
last_run stays at the value of the first successful run instead of being
updated. -/
theorem update_pipeline_log_insert_only (plog : List (String × Nat))
    (ticker : String) (ts : Nat) :
    (plog.any (fun p => p.1 == ticker) = false →
      update_pipeline_log plog ticker ts = plog ++ [(ticker, ts)])
    ∧ (plog.any (fun p => p.1 == ticker) = true →
      update_pipeline_log plog ticker ts = plog) := by
  constructor
  · intro h
    unfold update_pipeline_log
    rw [if_neg (by simp [h])]
  · intro h
    unfold update_pipeline_log
    rw [if_pos h]

/-- Witness: `update_pipeline_log_insert_only` creating a row on the first
run and leaving it stale on the second. -/
theorem update_pipeline_log_insert_only_witness :
    (([] : List (String × Nat)).any (fun p => p.1 == "INFY.NS") = false)
    ∧ update_pipeline_log [] "INFY.NS" 100 = [] ++ [("INFY.NS", 100)]
    ∧ ([("INFY.NS", (100 : Nat))].any (fun p => p.1 == "INFY.NS") = true)
    ∧ update_pipeline_log [("INFY.NS", 100)] "INFY.NS" 200 = [("INFY.NS", 100)] :=
  ⟨by decide,
   (update_pipeline_log_insert_only [] "INFY.NS" 100).1 (by decide),
   by decide,
   (update_pipeline_log_insert_only [("INFY.NS", 100)] "INFY.NS" 200).2 (by decide)⟩

/-- Concrete article used by the news-pipeline theorems. -/
def demoArticle : NewsArticle :=
  { ticker := "INFY.NS", ticker_id := 7, title := "t1", content := "c1", published_date := 10 }

/-- Concrete window fetcher: one non-empty page when asked from time 0,
empty pages afterwards. -/
def demoFetch : Nat → Nat → (List NewsArticle × Nat × Nat) :=
  fun fromD toD => if fromD = 0 then ([demoArticle], 10, 10) else ([], fromD, toD)

/-- C6 counterexample: in the news pipeline, a delta load for a ticker
with no watermark row does not execute as an init load. With a feed
holding one article, the delta run fetches nothing and pools no articles
(so the `if all_articles:` save block is skipped: nothing is saved and no
watermark row is written), while the init load over the same feed pools
the article. -/
theorem news_delta_no_watermark_cex :
    news_pool demoFetch 5 0 50 [] "INFY.NS" "delta" = []
    ∧ news_pool demoFetch 5 0 50 [] "INFY.NS" "init" = [demoArticle]
    ∧ news_pool demoFetch 5 0 50 [] "INFY.NS" "delta"
      ≠ news_pool demoFetch 5 0 50 [] "INFY.NS" "init" := by
  decide

/-- C6 amended: the per-ticker mode fallback exists only in the metadata
pipeline. There, a requested delta load for a ticker with no watermark
row runs as an init load for that call alone and `update_pipeline_log`
writes a fresh watermark row, while a ticker with a watermark row keeps
the requested delta mode (historical rows filtered past the stored
timestamp). In the news pipeline a delta load for a ticker with no
watermark row performs no load at all: it fetches nothing, pools no
articles, and consequently writes no watermark row. -/
theorem delta_without_watermark_behavior (plog : List (String × Nat)) (t1 t2 : String)
    (hist : List (Nat × Row)) (now m : Nat)
    (fetchA : Nat → Nat → (List NewsArticle × Nat × Nat)) (fuel start nnow : Nat)
    (nplog : List (String × Nat × Nat)) (t3 : String)
    (h1 : get_last_run_timestamp plog t1 = none)
    (h2 : get_last_run_timestamp plog t2 = some m)
    (h3 : nplog.find? (fun p => p.1 == t3) = none) :
    execute_company_pipeline plog t1 "delta" hist now
      = execute_company_pipeline plog t1 "init" hist now
    ∧ (t1, now) ∈ (execute_company_pipeline plog t1 "delta" hist now).pipeline_log
    ∧ (execute_company_pipeline plog t2 "delta" hist now).effective_load_type = "delta"
    ∧ (execute_company_pipeline plog t2 "delta" hist now).historical_saved
        = hist.filter (fun p => decide (m < p.1))
    ∧ news_pool fetchA fuel start nnow nplog t3 "delta" = [] := by
  refine ⟨?_, ?_, ?_, ?_, ?_⟩
  · unfold execute_company_pipeline
    rw [h1]
    simp
  · have hany : plog.any (fun p => p.1 == t1) = false := by
      rw [List.any_eq_false]
      intro p hp hpt
      have hmem : p.2 ∈ (plog.filter (fun q => q.1 == t1)).map Prod.snd :=
        List.mem_map_of_mem Prod.snd (List.mem_filter.mpr ⟨hp, hpt⟩)
      unfold get_last_run_timestamp at h1
      rw [List.max?_eq_none_iff] at h1
      rw [h1] at hmem
      cases hmem
    have hupd : update_pipeline_log plog t1 now = plog ++ [(t1, now)] := by
      unfold update_pipeline_log
      rw [if_neg (by simp [hany])]
    show (t1, now) ∈ update_pipeline_log plog t1 now
    rw [hupd]
    exact List.mem_append_right _ (List.mem_singleton.mpr rfl)
  · unfold execute_company_pipeline
    rw [h2]
    simp
  · unfold execute_company_pipeline
    rw [h2]
    simp
  · unfold news_pool
    rw [h3]
    simp

/-- Witness: `delta_without_watermark_behavior` on a two-ticker store where
only "TCS.NS" has a watermark row. -/
theorem delta_without_watermark_behavior_witness :
    get_last_run_timestamp [("TCS.NS", 5)] "INFY.NS" = none
    ∧ get_last_run_timestamp [("TCS.NS", 5)] "TCS.NS" = some 5
    ∧ ([] : List (String × Nat × Nat)).find? (fun p => p.1 == "INFY.NS") = none
    ∧ (execute_company_pipeline [("TCS.NS", 5)] "INFY.NS" "delta" [(3, []), (7, [])] 100
        = execute_company_pipeline [("TCS.NS", 5)] "INFY.NS" "init" [(3, []), (7, [])] 100
      ∧ ("INFY.NS", 100)
          ∈ (execute_company_pipeline [("TCS.NS", 5)] "INFY.NS" "delta"
              [(3, []), (7, [])] 100).pipeline_log
      ∧ (execute_company_pipeline [("TCS.NS", 5)] "TCS.NS" "delta"
          [(3, []), (7, [])] 100).effective_load_type = "delta"
      ∧ (execute_company_pipeline [("TCS.NS", 5)] "TCS.NS" "delta"
          [(3, []), (7, [])] 100).historical_saved
            = [((3 : Nat), ([] : Row)), (7, [])].filter (fun p => decide (5 < p.1))
      ∧ news_pool demoFetch 5 0 50 [] "INFY.NS" "delta" = []) :=
  ⟨by decide, by decide, by decide,
   delta_without_watermark_behavior [("TCS.NS", 5)] "INFY.NS" "TCS.NS"
     [(3, []), (7, [])] 100 5 demoFetch 5 0 50 [] "INFY.NS"
     (by decide) (by decide) (by decide)⟩

theorem fetch_go_spec (resp : Nat → ApiResponse) (genId : String → Nat) (ticker : String)
    (pages : Nat → List RawArticle) (N : Nat)
    (hok : ∀ i, i ≤ N → resp i = ApiResponse.ok (pages i))
    (hne : ∀ i, i < N → pages i ≠ [])
    (hempty : pages N = []) :
    ∀ (fuel calls : Nat) (acc : List NewsArticle) (latest oldest : Nat),
    N < calls + fuel → calls ≤ N →
    ∃ la ol, fetch_go resp genId ticker fuel calls acc latest oldest
      = (acc ++ (pagesFrom pages calls (N - calls)).map (mkNewsArticle genId ticker),
         la, ol, N + 1) := by
  intro fuel
  induction fuel with
  | zero =>
    intro calls acc latest oldest hfuel hcalls
    omega
  | succ fuel ih =>
    intro calls acc latest oldest hfuel hcalls
    have hr : resp calls = ApiResponse.ok (pages calls) := hok calls hcalls
    by_cases hcN : calls = N
    · subst hcN
      rw [hempty] at hr
      refine ⟨latest, oldest, ?_⟩
      have hstep : fetch_go resp genId ticker (fuel + 1) calls acc latest oldest
          = (acc, latest, oldest, calls + 1) := by
        simp only [fetch_go]
        rw [hr]
      rw [hstep, Nat.sub_self]
      show (acc, latest, oldest, calls + 1) = (acc ++ [], latest, oldest, calls + 1)
      rw [List.append_nil]
    · have hlt : calls < N := Nat.lt_of_le_of_ne hcalls hcN
      cases hpc : pages calls with
      | nil => exact absurd hpc (hne calls hlt)
      | cons a arts =>
        rw [hpc] at hr
        have hstep : fetch_go resp genId ticker (fuel + 1) calls acc latest oldest
            = fetch_go resp genId ticker fuel (calls + 1)
                (acc ++ (a :: arts).map (mkNewsArticle genId ticker))
                ((a :: arts).foldl
                  (fun l x => if l < x.publishedAt then x.publishedAt else l) latest)
                ((a :: arts).foldl
                  (fun o x => if x.publishedAt < o then x.publishedAt else o) oldest) := by
          simp only [fetch_go]
          rw [hr]
        obtain ⟨la, ol, hrec⟩ := ih (calls + 1)
          (acc ++ (a :: arts).map (mkNewsArticle genId ticker))
          ((a :: arts).foldl
            (fun l x => if l < x.publishedAt then x.publishedAt else l) latest)
          ((a :: arts).foldl
            (fun o x => if x.publishedAt < o then x.publishedAt else o) oldest)
          (by omega) hlt
        refine ⟨la, ol, ?_⟩
        rw [hstep, hrec]
        have hsub : N - calls = (N - (calls + 1)) + 1 := by omega
        rw [hsub]
        have hpf : pagesFrom pages calls ((N - (calls + 1)) + 1)
            = pages calls ++ pagesFrom pages (calls + 1) (N - (calls + 1)) := rfl
        rw [hpf, hpc, List.map_append, List.append_assoc]

/-- C7: against a feed that answers N non-empty pages and then an empty
page (N below the MAX_NUM_REQUESTS ceiling, per the loop's only other exit),
`fetch_articles` issues exactly N+1 requests — it terminates on the empty
page — and returns all N pages' records pooled together, sorted by
published timestamp ascending. -/
theorem fetch_articles_stitches (resp : Nat → ApiResponse) (genId : String → Nat)
    (ticker : String) (pages : Nat → List RawArticle) (N maxReq fromDate toDate : Nat)
    (hok : ∀ i, i ≤ N → resp i = ApiResponse.ok (pages i))
    (hne : ∀ i, i < N → pages i ≠ [])
    (hempty : pages N = []) (hmax : N < maxReq) :
    (fetch_articles resp genId ticker maxReq fromDate toDate).2.2.2 = N + 1
    ∧ (fetch_articles resp genId ticker maxReq fromDate toDate).1.Perm
        ((pagesFrom pages 0 N).map (mkNewsArticle genId ticker))
    ∧ (fetch_articles resp genId ticker maxReq fromDate toDate).1.Pairwise
        (fun a b => a.published_date ≤ b.published_date) := by
  obtain ⟨la, ol, hgo⟩ := fetch_go_spec resp genId ticker pages N hok hne hempty
    maxReq 0 [] fromDate toDate (by omega) (Nat.zero_le N)
  rw [Nat.sub_zero, List.nil_append] at hgo
  have hfa : fetch_articles resp genId ticker maxReq fromDate toDate
      = (((pagesFrom pages 0 N).map (mkNewsArticle genId ticker)).mergeSort
           (fun a b => decide (a.published_date ≤ b.published_date)), la, ol, N + 1) := by
    unfold fetch_articles
    rw [hgo]
  have htrans : ∀ a b c : NewsArticle,
      decide (a.published_date ≤ b.published_date)
      → decide (b.published_date ≤ c.published_date)
      → decide (a.published_date ≤ c.published_date) := by
    intro a b c hab hbc
    simp only [decide_eq_true_eq] at *
    omega
  have htotal : ∀ a b : NewsArticle,
      (decide (a.published_date ≤ b.published_date)
        || decide (b.published_date ≤ a.published_date)) = true := by
    intro a b
    rcases Nat.le_total a.published_date b.published_date with h | h <;> simp [h]
  refine ⟨?_, ?_, ?_⟩
  · rw [hfa]
  · rw [hfa]
    exact List.mergeSort_perm _ _
  · rw [hfa]
    exact (List.sorted_mergeSort htrans htotal _).imp (fun h => of_decide_eq_true h)

/-- Concrete feed of the C7 witness: two one-article pages then an empty
page. -/
def demoPages : Nat → List RawArticle :=
  fun i =>
    if i = 0 then [{ title := "a", content := "x", publishedAt := 9 }]
    else if i = 1 then [{ title := "b", content := "y", publishedAt := 4 }]
    else []

/-- Concrete API responses of the C7 witness. -/
def demoResp : Nat → ApiResponse := fun i => ApiResponse.ok (demoPages i)

/-- Witness: `fetch_articles_stitches` on a feed of 2 pages then an empty
page, with a request ceiling of 10. -/
theorem fetch_articles_stitches_witness :
    (∀ i, i ≤ 2 → demoResp i = ApiResponse.ok (demoPages i))
    ∧ (∀ i, i < 2 → demoPages i ≠ [])
    ∧ demoPages 2 = []
    ∧ (2 : Nat) < 10
    ∧ ((fetch_articles demoResp (fun _ => 7) "INFY.NS" 10 0 50).2.2.2 = 2 + 1
      ∧ (fetch_articles demoResp (fun _ => 7) "INFY.NS" 10 0 50).1.Perm
          ((pagesFrom demoPages 0 2).map (mkNewsArticle (fun _ => 7) "INFY.NS"))
      ∧ (fetch_articles demoResp (fun _ => 7) "INFY.NS" 10 0 50).1.Pairwise
          (fun a b => a.published_date ≤ b.published_date)) :=
  ⟨by decide, by decide, by decide, by decide,
   fetch_articles_stitches demoResp (fun _ => 7) "INFY.NS" demoPages 2 10 0 50
     (by decide) (by decide) (by decide) (by decide)⟩
